import Mathlib

/-!
Shallow embedding of `session_2/challenge/scripts/leaderboard.py`
(function `generate_leaderboard`), the table parse → merge → dedup →
rank → render pipeline of the leaderboard updater.

Modelling conventions, stated once:

* A Python `str` is modelled as a Lean `String` / `List Char` (Python
  strings index by code point, as does `List Char`).
* `str.find` returns the first match index, `-1` when absent; slicing
  `s[a:b]` follows Python semantics including negative indices.  Both are
  modelled exactly (`strFind`, `pySlice`); the source never checks for
  `-1`, and neither does the model.
* Scores (`float(cell)`, pandas `astype(float)`) are modelled by `PyF`:
  finite decimal literals (sign, digits, point, exponent, underscores)
  as exact rationals, and the case-insensitive special literals
  `inf`/`infinity`/`nan` that `float()` also accepts as first-class
  non-finite values.  IEEE rounding is outside the model; comparisons
  the source performs between floats of distinct rational value agree
  with the rational order.  `int(cell)` (pandas `astype(int)`) is
  modelled over ASCII sign/digits/underscores.
* `df.groupby("GitHub Username")["Accuracy %"].idxmax()` groups by the
  exact cell string, sorts the group keys ascending (`sort=True` is the
  pandas default; Lean's `String` order is the same code-point
  lexicographic order as Python's), and for each group returns the label
  of the *first* row attaining the group maximum (`Series.idxmax`
  documented behaviour); `df.loc[...]` then yields the retained rows in
  sorted-key order.
* `df.sort_values(by=..., ascending=False)` is modelled as a STABLE
  descending sort: pandas `nargsort` reverses the values and labels
  before the ascending argsort and reverses the resulting indexer again
  afterwards (deliberately stable for descending sorts, pandas
  GH#6399), then appends the NaN labels last in their original order
  (`na_position="last"`); a stable insertion sort under the total
  order `pyfLe` (NaN at the bottom) reproduces exactly that.
* `df.to_markdown(index=False)` calls `tabulate(df, headers="keys",
  tablefmt="pipe", showindex=False)`: a header row, an alignment
  separator row, then one data row per record; numeric columns are
  decimal/right aligned (`---:`), string columns left aligned (`:---`),
  column width is `max(cell widths, header width + 2)`, each cell gets
  one space of padding on each side, floats are formatted with Python's
  `"g"` format (6 significant digits, trailing zeros dropped).
* Reading the leaderboard file is modelled by passing the document text
  `content` as an argument; writing is modelled by returning the new
  text.  An uncaught Python exception (the `ValueError` that
  `astype` raises on an unparseable cell) is `Except.error`, which
  aborts the update before the file is opened for writing.
-/

set_option maxRecDepth 40000

/-! ### Python string primitives -/

/-- Python whitespace for `str.strip` (ASCII portion). -/
def pyWs (c : Char) : Bool :=
  c == ' ' || c == '\t' || c == '\n' || c == '\x0d' || c == '\x0b' || c == '\x0c'

/-- Model of Python `str.strip()`. -/
def pyStrip (s : List Char) : List Char :=
  ((s.dropWhile pyWs).reverse.dropWhile pyWs).reverse

/-- First index at which `p` occurs in `h`, if any (Python `str.find` core). -/
def strFindAux (p : List Char) : List Char → Option Nat
  | [] => if p = [] then some 0 else none
  | c :: rest =>
    if (c :: rest).take p.length = p then some 0
    else (strFindAux p rest).map (· + 1)

/-- Model of Python `str.find`: first match index, `-1` when absent. -/
def strFind (h p : List Char) : Int :=
  match strFindAux p h with
  | some i => (i : Int)
  | none => -1

/-- Clamp a Python slice endpoint to an absolute position in `[0, n]`. -/
def pyClamp (n : Nat) (i : Int) : Nat :=
  if 0 ≤ i then min i.toNat n else ((n : Int) + i).toNat

/-- Model of Python slicing `s[a:b]` (negative indices count from the end). -/
def pySlice (s : List Char) (a b : Int) : List Char :=
  (s.take (pyClamp s.length b)).drop (pyClamp s.length a)

/-! ### Row extraction

The source extracts rows with
`re.findall(r"\|([^|]+)\|([^|]+)\|([^|]+)\|([^|]+)\|([^|]+)\|", table_content)[2:]`.
For this pattern the regex engine's behaviour is: scan for a `'|'`,
take five maximal nonempty pipe-free runs each terminated by `'|'`
(greedy `[^|]+` never needs to backtrack here, because each group is
followed by a literal `'|'`), consume through the final `'|'`, and on
failure resume scanning one character further on.  `[^|]` matches
newlines as well, exactly as in Python (no `re.DOTALL` is involved for
character classes). -/

/-- One raw table row: the five captured cell texts, in column order. -/
structure Row where
  rank : String
  profile : String
  user : String
  solution : String
  score : String
deriving DecidableEq

/-- Capture one `([^|]+)\|` group: a maximal nonempty pipe-free run
followed by a consumed `'|'`. -/
def grabField (s : List Char) : Option (List Char × List Char) :=
  let f := s.takeWhile (fun c => c != '|')
  if f.isEmpty then none
  else
    match s.drop f.length with
    | '|' :: rest => some (f, rest)
    | _ => none

/-- Attempt the whole row pattern at the current position. -/
def tryRow (s : List Char) : Option (Row × List Char) :=
  match s with
  | '|' :: r0 => do
    let (f1, r1) ← grabField r0
    let (f2, r2) ← grabField r1
    let (f3, r3) ← grabField r2
    let (f4, r4) ← grabField r3
    let (f5, r5) ← grabField r4
    pure (⟨String.mk f1, String.mk f2, String.mk f3, String.mk f4, String.mk f5⟩, r5)
  | _ => none

/-- Scanning loop of `re.findall`; the fuel argument is the remaining
input length (every step consumes at least one character, so the fuel
never runs out before the input does). -/
def findallAux : Nat → List Char → List Row
  | 0, _ => []
  | _ + 1, [] => []
  | fuel + 1, c :: rest =>
    if c = '|' then
      match tryRow (c :: rest) with
      | some (row, rest') => row :: findallAux fuel rest'
      | none => findallAux fuel rest
    else findallAux fuel rest

/-- All matches of the five-field row pattern, leftmost first. -/
def findall5 (s : List Char) : List Row := findallAux s.length s

/-! ### Cell parsing (`astype(int)` / `astype(float)`) -/

/-- Tail of a Python integer literal: digits with single interior
underscores. -/
def digitsTail : List Char → Bool
  | [] => true
  | ['_'] => false
  | '_' :: c :: r => c.isDigit && digitsTail r
  | c :: r => c.isDigit && digitsTail r

/-- A nonempty run of ASCII digits with optional single interior
underscores (the digit part of Python `int`/`float` literals). -/
def digitsOK : List Char → Bool
  | [] => false
  | c :: r => c.isDigit && digitsTail r

/-- Numeric value of a digit run, ignoring underscores. -/
def digitsVal (s : List Char) : Nat :=
  s.foldl (fun a c => if c == '_' then a else a * 10 + (c.toNat - 48)) 0

/-- Model of Python `int(str)` on an already-stripped cell. -/
def pyInt (s : List Char) : Option Int :=
  match s with
  | '+' :: r => if digitsOK r then some (digitsVal r) else none
  | '-' :: r => if digitsOK r then some (-(digitsVal r : Int)) else none
  | _ => if digitsOK s then some (digitsVal s) else none

/-- Value and digit count of an unsigned digit run. -/
def parseUDigits (s : List Char) : Option (Nat × Nat) :=
  if digitsOK s then some (digitsVal s, (s.filter Char.isDigit).length) else none

/-- Split at the first character satisfying `t`: the part before it and,
when found, the part after it. -/
def breakAt (t : Char → Bool) (s : List Char) : List Char × Option (List Char) :=
  let a := s.takeWhile (fun c => !t c)
  match s.drop a.length with
  | [] => (a, none)
  | _ :: r => (a, some r)

/-- Unsigned mantissa of a Python float literal: `digits`, `digits.`,
`.digits` or `digits.digits`.  Returns `(n, k)` for the exact value
`n / 10^k` (rational arithmetic is deferred to a single `mkRat` in
`pyFloat`, keeping every operation kernel-reducible). -/
def parseMantissa (s : List Char) : Option (Nat × Nat) :=
  let (ip, rest) := breakAt (fun c => c == '.') s
  match rest with
  | none => (parseUDigits s).map (fun v => (v.1, 0))
  | some fp =>
    match ip, fp with
    | [], [] => none
    | [], _ => parseUDigits fp
    | _, [] => (parseUDigits ip).map (fun v => (v.1, 0))
    | _, _ => do
      let iv ← parseUDigits ip
      let fv ← parseUDigits fp
      pure (iv.1 * 10 ^ fv.2 + fv.1, fv.2)

/-- The value of one parsed float cell: Python floats, as far as the
program's control flow can observe them.  Finite values are exact
rationals (IEEE rounding is outside the model: all comparisons the
source performs between floats of distinct rational value agree with
the rational order); the non-finite literals `inf`/`infinity`/`nan`
that `float()` accepts are first-class values. -/
inductive PyF where
  | fin (q : ℚ) : PyF
  | pinf : PyF
  | ninf : PyF
  | nan : PyF
deriving DecidableEq

/-- The rank of a value in the total order pandas effectively sorts
by: `nargsort` places NaN last in a descending sort (`na_position =
"last"`), `-inf` below every finite value and `inf` above.  Giving NaN
the bottom rank reproduces exactly that: a stable descending sort
sends the bottom rank to the end, in original order. -/
def pyfRank : PyF → ℕ
  | .nan => 0
  | .ninf => 1
  | .fin _ => 2
  | .pinf => 3

/-- The finite value carried, for same-rank comparisons. -/
def pyfVal : PyF → ℚ
  | .fin q => q
  | _ => 0

/-- The sort order on parsed float cells (lexicographic on rank, then
finite value); see `pyfRank`. -/
def pyfLe (a b : PyF) : Prop :=
  pyfRank a < pyfRank b ∨ (pyfRank a = pyfRank b ∧ pyfVal a ≤ pyfVal b)

/-- Strict version of `pyfLe`. -/
def pyfLt (a b : PyF) : Prop :=
  pyfRank a < pyfRank b ∨ (pyfRank a = pyfRank b ∧ pyfVal a < pyfVal b)

instance : LE PyF := ⟨pyfLe⟩

instance : LT PyF := ⟨pyfLt⟩

instance pyfLeDec (a b : PyF) : Decidable (a ≤ b) :=
  inferInstanceAs (Decidable (pyfRank a < pyfRank b ∨ (pyfRank a = pyfRank b ∧ pyfVal a ≤ pyfVal b)))

instance pyfLtDec (a b : PyF) : Decidable (a < b) :=
  inferInstanceAs (Decidable (pyfRank a < pyfRank b ∨ (pyfRank a = pyfRank b ∧ pyfVal a < pyfVal b)))

/-- The sort order is reflexive. -/
theorem pyfLe_refl (a : PyF) : pyfLe a a := Or.inr ⟨rfl, le_refl _⟩

/-- The sort order is transitive. -/
theorem pyfLe_trans {a b c : PyF} (h1 : pyfLe a b) (h2 : pyfLe b c) : pyfLe a c := by
  rcases h1 with h1 | ⟨e1, v1⟩
  · rcases h2 with h2 | ⟨e2, v2⟩
    · exact Or.inl (lt_trans h1 h2)
    · exact Or.inl (by rw [← e2]; exact h1)
  · rcases h2 with h2 | ⟨e2, v2⟩
    · exact Or.inl (by rw [e1]; exact h2)
    · exact Or.inr ⟨e1.trans e2, le_trans v1 v2⟩

/-- The sort order is total. -/
theorem pyfLe_total (a b : PyF) : pyfLe a b ∨ pyfLe b a := by
  rcases lt_trichotomy (pyfRank a) (pyfRank b) with h | h | h
  · exact Or.inl (Or.inl h)
  · rcases le_total (pyfVal a) (pyfVal b) with hv | hv
    · exact Or.inl (Or.inr ⟨h, hv⟩)
    · exact Or.inr (Or.inr ⟨h.symm, hv⟩)
  · exact Or.inr (Or.inl h)

/-- Strict comparison implies the weak one. -/
theorem pyfLe_of_lt {a b : PyF} (h : pyfLt a b) : pyfLe a b := by
  rcases h with h | ⟨e, v⟩
  · exact Or.inl h
  · exact Or.inr ⟨e, le_of_lt v⟩

/-- Failure of strict comparison gives the reverse weak one. -/
theorem pyfLe_of_not_lt {a b : PyF} (h : ¬ pyfLt a b) : pyfLe b a := by
  rcases lt_trichotomy (pyfRank a) (pyfRank b) with hr | hr | hr
  · exact absurd (Or.inl hr) h
  · rcases lt_trichotomy (pyfVal a) (pyfVal b) with hv | hv | hv
    · exact absurd (Or.inr ⟨hr, hv⟩) h
    · exact Or.inr ⟨hr.symm, le_of_eq hv.symm⟩
    · exact Or.inr ⟨hr.symm, le_of_lt hv⟩
  · exact Or.inl hr

/-- Model of Python `float(str)` on an already-stripped cell: an
optional sign, then either one of the case-insensitive special words
`inf`, `infinity`, `nan` (all accepted by `float()`, hence by
`astype(float)`), or a finite decimal literal with optional point,
exponent and digit-group underscores. -/
def pyFloat (s : List Char) : Option PyF :=
  let (neg, s1) : Bool × List Char :=
    match s with
    | '+' :: r => (false, r)
    | '-' :: r => (true, r)
    | _ => (false, s)
  let low := s1.map Char.toLower
  if low = "inf".toList ∨ low = "infinity".toList then
    some (if neg then .ninf else .pinf)
  else if low = "nan".toList then some .nan
  else
    let (m, e) := breakAt (fun c => c == 'e' || c == 'E') s1
    do
      let mv ← parseMantissa m
      let ev ← match e with
        | none => some (0 : Int)
        | some ex => pyInt ex
      let numer : Int := if neg then -(mv.1 : Int) else (mv.1 : Int)
      if 0 ≤ ev then pure (.fin (mkRat (numer * ((10 ^ ev.toNat : ℕ) : Int)) (10 ^ mv.2)))
      else pure (.fin (mkRat numer (10 ^ mv.2 * 10 ^ (-ev).toNat)))

/-! ### The data model after parsing -/

/-- One parsed leaderboard row (one row of the DataFrame after
`astype`): rank as integer, three opaque display cells, score as the
exact value of the float cell. -/
structure Record where
  rank : Int
  profile : String
  user : String
  solution : String
  score : PyF
deriving DecidableEq

/-- The only exception the pipeline can raise before writing: pandas
`astype` failing on an unparseable rank or score cell; the offending
raw row is carried for identification. -/
inductive LeaderboardError where
  | rowParse (row : Row) : LeaderboardError
deriving DecidableEq

/-! ### Pipeline stages -/

/-- The begin sentinel, as in the source (`start_marker`), including the
trailing newline. -/
def beginMarker : String := "<!-- leader-board-begins -->\n"

/-- The end sentinel search string, as in the source, including the
leading newline. -/
def endMarker : String := "\n<!-- leader-board-ends -->"

/-- Base URL used for the new entry's solution link. -/
def repoUrl : String :=
  "https://github.com/infocusp/llm_seminar_series/blob/main/session_2/challenge/submissions"

/-- `content[start_index:end_index]` with the raw `str.find` results,
exactly as in the source (no check for `-1`). -/
def tableRegion (content : String) : List Char :=
  pySlice content.toList
    (strFind content.toList beginMarker.toList)
    (strFind content.toList endMarker.toList)

/-- Strip every cell of a raw row (`df.apply(... str.strip ...)`). -/
def stripRow (r : Row) : Row :=
  ⟨String.mk (pyStrip r.rank.toList), String.mk (pyStrip r.profile.toList),
   String.mk (pyStrip r.user.toList), String.mk (pyStrip r.solution.toList),
   String.mk (pyStrip r.score.toList)⟩

/-- Extracted and stripped rows: all pattern matches in the table
region minus the first two (header labels and header separator). -/
def extractedRows (content : String) : List Row :=
  ((findall5 (tableRegion content)).drop 2).map stripRow

/-- Does the rank cell fail `astype(int)`? -/
def badRank (r : Row) : Bool := (pyInt r.rank.toList).isNone

/-- Does the score cell fail `astype(float)`? -/
def badScore (r : Row) : Bool := (pyFloat r.score.toList).isNone

/-- The two column-wise `astype` casts: the whole Rank column first,
then the whole Accuracy column; the first unparseable cell (in that
order) raises, identifying its row. -/
def parseRows (rows : List Row) : Except LeaderboardError (List Record) :=
  match rows.find? badRank with
  | some r => .error (.rowParse r)
  | none =>
    match rows.find? badScore with
    | some r => .error (.rowParse r)
    | none =>
      .ok (rows.map fun r =>
        { rank := (pyInt r.rank.toList).getD 0
          profile := r.profile
          user := r.user
          solution := r.solution
          score := (pyFloat r.score.toList).getD (.fin 0) })

/-- The new entry appended for the submission (`new_entry` dict in the
source); `count` is the number of existing rows. -/
def newEntry (prompt_name : String) (accuracy : ℚ) (github_user : String)
    (count : Nat) : Record :=
  { rank := (count : Int) + 1
    profile := "<img src=\"https://github.com/" ++ github_user ++
      ".png\" width=\"50px\" height=\"50px\" class=\"profile-image\">"
    user := "[" ++ github_user ++ "](https://github.com/" ++ github_user ++ ")"
    solution := "[" ++ prompt_name ++ "](" ++ repoUrl ++ "/" ++ prompt_name ++ ".py)"
    score := .fin accuracy }

/-- Existing parsed records with the new entry appended
(`pd.concat([df, pd.DataFrame([new_entry])], ignore_index=True)`). -/
def allRecordsE (prompt_name : String) (accuracy : ℚ) (github_user : String)
    (content : String) : Except LeaderboardError (List Record) :=
  (parseRows (extractedRows content)).map
    (fun recs => recs ++ [newEntry prompt_name accuracy github_user recs.length])

/-- First record attaining the maximum score of the list
(`Series.idxmax` keeps the first maximal label).  Under the `pyfLt`
order NaN is the bottom element, so in a mixed group a NaN row never
wins and a non-NaN maximum is selected, matching pandas' `skipna`
behaviour; a group consisting solely of NaN scores makes pandas raise
a `ValueError` (also aborting before any write) where this model
retains the group's first record — no claim depends on that corner. -/
def firstMax : List Record → Option Record
  | [] => none
  | x :: xs =>
    match firstMax xs with
    | none => some x
    | some m => if x.score < m.score then some m else some x

/-- Retained record of the group keyed by `k`. -/
def groupMax (all : List Record) (k : String) : Option Record :=
  firstMax (all.filter (fun r => r.user = k))

/-- Code-point lexicographic `≤` on character lists, Python's string
order (and the order Lean's `String` instances implement). -/
def listLe : List Char → List Char → Bool
  | [], _ => true
  | _ :: _, [] => false
  | a :: as, b :: bs =>
    if a.toNat < b.toNat then true
    else if b.toNat < a.toNat then false
    else listLe as bs

/-- The key order of pandas `groupby(sort=True)` on an object column of
Python strings. -/
def keyLe (a b : String) : Prop := listLe a.toList b.toList = true

instance : DecidableRel keyLe := fun a b =>
  inferInstanceAs (Decidable (listLe a.toList b.toList = true))

/-- Group keys in the order pandas `groupby(sort=True)` produces them:
the distinct user cells, sorted ascending. -/
def sortedKeys (users : List String) : List String :=
  List.insertionSort keyLe users.dedup

/-- The dedup step (`groupby("GitHub Username")["Accuracy %"].idxmax()`
followed by `df.loc[...]`): one retained record per distinct user cell,
in sorted-key order. -/
def dedupRecords (all : List Record) : List Record :=
  (sortedKeys (all.map (·.user))).filterMap (groupMax all)

/-- Descending comparison on scores: `a` may precede `b` in the
output of `sort_values(by="Accuracy %", ascending=False)`. -/
def geScore (a b : Record) : Prop := b.score ≤ a.score

instance : DecidableRel geScore := fun a b => pyfLeDec b.score a.score

instance : IsTotal Record geScore := ⟨fun a b => pyfLe_total b.score a.score⟩

instance : IsTrans Record geScore := ⟨fun _ _ _ h h' => pyfLe_trans h' h⟩

/-- `sort_values(by="Accuracy %", ascending=False)`: a STABLE
descending sort.  pandas `nargsort` reverses the values and labels
before the ascending argsort and reverses the resulting indexer again
afterwards (stable descending sort, pandas GH#6399), then appends the
NaN labels last in original order; a stable insertion sort under the
total order `geScore` (NaN at the bottom) is exactly that. -/
def sortDesc (l : List Record) : List Record :=
  List.insertionSort geScore l

/-- Re-assignment of the Rank column (`df_sorted.index + 1`), starting
from `n`. -/
def rerankFrom (n : Int) : List Record → List Record
  | [] => []
  | r :: rs => { r with rank := n } :: rerankFrom (n + 1) rs

/-- Dense 1-based re-ranking after the sort. -/
def rerank (l : List Record) : List Record := rerankFrom 1 l

/-- The fully merged, deduplicated, sorted, re-ranked record sequence
(`df_sorted` just before `to_markdown`). -/
def mergedRecords (prompt_name : String) (accuracy : ℚ) (github_user : String)
    (content : String) : Except LeaderboardError (List Record) :=
  (allRecordsE prompt_name accuracy github_user content).map
    (fun all => rerank (sortDesc (dedupRecords all)))

/-! ### Rendering (`df_sorted.to_markdown(index=False)`)

pandas `to_markdown` is `tabulate(df, headers="keys", tablefmt="pipe",
showindex=False)`; the layout rules modelled below are tabulate's:
float cells formatted with Python's `"g"` format, decimal/right
alignment for numeric columns, left alignment for string columns,
column width `max(widths of aligned cells, header width + 2)`, one
space of padding each side of every cell, the alignment row using
`---:` for numeric and `:---` for string columns. -/

/-- Number of decimal digits of a positive natural. -/
def digits10 (n : Nat) : Nat := (Nat.toDigits 10 n).length

/-- Integer power of ten as a rational. -/
def pow10Q (e : Int) : ℚ :=
  if 0 ≤ e then mkRat ((10 ^ e.toNat : ℕ) : Int) 1 else mkRat 1 (10 ^ (-e).toNat)

/-- Multiply a rational by an integer power of ten (via `mkRat`, so
that kernel reduction stays cheap). -/
def mulPow10 (x : ℚ) (e : Int) : ℚ :=
  if 0 ≤ e then mkRat (x.num * ((10 ^ e.toNat : ℕ) : Int)) x.den
  else mkRat x.num (x.den * 10 ^ (-e).toNat)

/-- Decimal exponent of a positive rational: the unique `e` with
`10^e ≤ x < 10^(e+1)`, computed from digit counts. -/
def qExp10 (x : ℚ) : Int :=
  let g : Int := (digits10 x.num.natAbs : Int) - (digits10 x.den : Int)
  if pow10Q g ≤ x then g else g - 1

/-- Floor of a rational, computed directly on the normalized
numerator/denominator (so that kernel reduction stays cheap). -/
def qFloorZ (q : ℚ) : Int := q.num.fdiv (q.den : Int)

/-- Round a nonnegative rational to the nearest integer, ties to even
(the rounding of Python's float formatting).  The fractional part
`m - ⌊m⌋` is compared with `1/2` by cross-multiplication, again to
keep every step kernel-reducible. -/
def roundHalfEven (m : ℚ) : Int :=
  let n := qFloorZ m
  let f : ℚ := mkRat (m.num - n * (m.den : Int)) m.den
  if f < mkRat 1 2 then n
  else if mkRat 1 2 < f then n + 1
  else if n % 2 = 0 then n else n + 1

/-- Exponent digits of scientific notation, padded to width two. -/
def sciExpDigits (e : Nat) : List Char :=
  if e < 10 then '0' :: Nat.toDigits 10 e else Nat.toDigits 10 e

/-- Model of Python `format(x, "g")`: 6 significant digits, trailing
zeros dropped, fixed notation for exponents in `[-4, 6)`, scientific
notation otherwise. -/
def fmtG (q : ℚ) : String :=
  if q = 0 then "0"
  else
    let sgn := if q < 0 then "-" else ""
    let x : ℚ := if q < 0 then mkRat (-q.num) q.den else q
    let e := qExp10 x
    let m1 := roundHalfEven (mulPow10 x (5 - e))
    let m2 := if m1 = 10 ^ 6 then ((10 ^ 5 : Int), e + 1) else (m1, e)
    let ds := (((Nat.toDigits 10 m2.1.toNat).reverse.dropWhile (fun c => c == '0'))).reverse
    let L : Int := ds.length
    let e2 := m2.2
    let body : List Char :=
      if -4 ≤ e2 ∧ e2 < 6 then
        if L - 1 ≤ e2 then ds ++ List.replicate (e2 - (L - 1)).toNat '0'
        else if 0 ≤ e2 then ds.take (e2 + 1).toNat ++ '.' :: ds.drop (e2 + 1).toNat
        else '0' :: '.' :: (List.replicate (-e2 - 1).toNat '0' ++ ds)
      else
        (if ds.length = 1 then ds else ds.take 1 ++ '.' :: ds.drop 1) ++
          'e' :: (if e2 < 0 then '-' else '+') :: sciExpDigits e2.natAbs
    sgn ++ String.mk body

/-- Formatting of a whole float cell: Python renders the non-finite
values as `inf`, `-inf` and `nan` under `"g"` as well. -/
def fmtPyF : PyF → String
  | .fin q => fmtG q
  | .pinf => "inf"
  | .ninf => "-inf"
  | .nan => "nan"

/-- A run of spaces. -/
def spacesStr (n : Nat) : String := String.mk (List.replicate n ' ')

/-- Left-pad (right-align) to width `w`. -/
def padL (w : Nat) (s : String) : String := spacesStr (w - s.length) ++ s

/-- Right-pad (left-align) to width `w`. -/
def padR (w : Nat) (s : String) : String := s ++ spacesStr (w - s.length)

/-- A run of dashes. -/
def dashes (n : Nat) : String := String.mk (List.replicate n '-')

/-- Maximum of a list of widths. -/
def maxNat (l : List Nat) : Nat := l.foldl max 0

/-- Number of characters after the last decimal point, `-1` when the
cell has none (tabulate's decimal-alignment measure for our cells). -/
def afterPt (s : String) : Int :=
  if s.toList.contains '.' then
    ((s.toList.reverse.takeWhile (fun c => c != '.')).length : Int)
  else -1

/-- Largest decimal tail in a numeric column. -/
def colM (cells : List String) : Int := (cells.map afterPt).foldl max (-1)

/-- Decimal alignment: pad the cell on the right so the decimal points
of the column line up. -/
def decPad (cells : List String) (s : String) : String :=
  s ++ spacesStr (colM cells - afterPt s).toNat

/-- Width of a numeric column. -/
def numColW (hdr : String) (cells : List String) : Nat :=
  max (hdr.length + 2) (maxNat (cells.map (fun s => (decPad cells s).length)))

/-- A fully aligned cell of a numeric column. -/
def numCell (hdr : String) (cells : List String) (s : String) : String :=
  padL (numColW hdr cells) (decPad cells s)

/-- Width of a string column. -/
def strColW (hdr : String) (cells : List String) : Nat :=
  max (hdr.length + 2) (maxNat (cells.map String.length))

/-- A fully aligned cell of a string column. -/
def strCell (hdr : String) (cells : List String) (s : String) : String :=
  padR (strColW hdr cells) s

/-- Assemble one pipe-format row from five aligned cells. -/
def rowOf (c1 c2 c3 c4 c5 : String) : String :=
  "| " ++ c1 ++ " | " ++ c2 ++ " | " ++ c3 ++ " | " ++ c4 ++ " | " ++ c5 ++ " |"

/-- Assemble the alignment separator row. -/
def sepOf (s1 s2 s3 s4 s5 : String) : String :=
  "|" ++ s1 ++ "|" ++ s2 ++ "|" ++ s3 ++ "|" ++ s4 ++ "|" ++ s5 ++ "|"

/-- The Rank column's formatted cells (`str` of int64). -/
def rankCells (recs : List Record) : List String := recs.map (fun r => toString r.rank)

/-- The Profile Image column's cells. -/
def profileCells (recs : List Record) : List String := recs.map (·.profile)

/-- The GitHub Username column's cells. -/
def userCells (recs : List Record) : List String := recs.map (·.user)

/-- The Solution column's cells. -/
def solutionCells (recs : List Record) : List String := recs.map (·.solution)

/-- The Accuracy column's formatted cells (`"g"` format). -/
def accCells (recs : List Record) : List String := recs.map (fun r => fmtPyF r.score)

/-- The header labels row of the rendered table. -/
def headerLine (recs : List Record) : String :=
  rowOf (padL (numColW "Rank" (rankCells recs)) "Rank")
    (padR (strColW "Profile Image" (profileCells recs)) "Profile Image")
    (padR (strColW "GitHub Username" (userCells recs)) "GitHub Username")
    (padR (strColW "Solution" (solutionCells recs)) "Solution")
    (padL (numColW "Accuracy %" (accCells recs)) "Accuracy %")

/-- The header separator (alignment) row of the rendered table. -/
def sepLine (recs : List Record) : String :=
  sepOf (dashes (numColW "Rank" (rankCells recs) + 1) ++ ":")
    (":" ++ dashes (strColW "Profile Image" (profileCells recs) + 1))
    (":" ++ dashes (strColW "GitHub Username" (userCells recs) + 1))
    (":" ++ dashes (strColW "Solution" (solutionCells recs) + 1))
    (dashes (numColW "Accuracy %" (accCells recs) + 1) ++ ":")

/-- The data row rendered for one record (cell alignment depends on the
whole column, hence the `recs` parameter). -/
def dataLine (recs : List Record) (r : Record) : String :=
  rowOf (numCell "Rank" (rankCells recs) (toString r.rank))
    (strCell "Profile Image" (profileCells recs) r.profile)
    (strCell "GitHub Username" (userCells recs) r.user)
    (strCell "Solution" (solutionCells recs) r.solution)
    (numCell "Accuracy %" (accCells recs) (fmtPyF r.score))

/-- All lines of the rendered table: header labels, separator, then one
data row per record, in order. -/
def tableLines (recs : List Record) : List String :=
  headerLine recs :: sepLine recs :: recs.map (dataLine recs)

/-- Python `"\n".join`. -/
def joinNL : List String → String
  | [] => ""
  | [s] => s
  | s :: t => s ++ "\n" ++ joinNL t

/-- The rendered table markup (`df_sorted.to_markdown(index=False)`). -/
def toMarkdown (recs : List Record) : String := joinNL (tableLines recs)

/-- Split a string at newlines (inverse of `joinNL` on newline-free
lines); used to state line-structure properties of the rendering. -/
def splitNLc : List Char → List (List Char)
  | [] => [[]]
  | c :: r =>
    if c = '\n' then [] :: splitNLc r
    else
      match splitNLc r with
      | h :: t => (c :: h) :: t
      | [] => [[c]]

/-- The lines of a string. -/
def linesOf (s : String) : List String := (splitNLc s.toList).map String.mk

/-- The whole update: read `content`, extract, parse (aborting on an
unparseable rank or score cell), merge, dedup, sort, re-rank, render,
and splice the rendered table back between the markers.  `Except.ok`
carries the full text written back to the leaderboard file;
`Except.error` means the update died before the file was opened for
writing, leaving the document byte-identical. -/
def generate_leaderboard (prompt_name : String) (accuracy : ℚ) (github_user : String)
    (content : String) : Except LeaderboardError String :=
  (mergedRecords prompt_name accuracy github_user content).map (fun l =>
    let s := strFind content.toList beginMarker.toList
    let e := strFind content.toList endMarker.toList
    String.mk (pySlice content.toList 0 (s + (beginMarker.length : Int)) ++
      (toMarkdown l).toList ++
      pySlice content.toList e (content.length : Int)))

/-! ### Concrete documents and records used by the witnesses and
counterexamples below -/

/-- A document with one existing data row between the markers. -/
def docSingle : String :=
  "X\n<!-- leader-board-begins -->\n| Rank | Profile Image | GitHub Username | Solution | Accuracy % |\n|---|---|---|---|---|\n| 1 | p | [a](u) | s | 90.0 |\n<!-- leader-board-ends -->\n"

/-- The merged record sequence the pipeline produces for `docSingle`
with the submission `("p", 80, "al")`. -/
def outSingle : List Record :=
  [{ rank := 1, profile := "p", user := "[a](u)", solution := "s", score := .fin 90 },
   { rank := 2,
     profile := "<img src=\"https://github.com/al.png\" width=\"50px\" height=\"50px\" class=\"profile-image\">",
     user := "[al](https://github.com/al)",
     solution := "[p](https://github.com/infocusp/llm_seminar_series/blob/main/session_2/challenge/submissions/p.py)",
     score := .fin 80 }]

/-- A document whose begin marker is absent while the end marker is
present. -/
def docNoBegin : String := "ABC\n<!-- leader-board-ends -->XYZ"

/-- An existing row of a participant, score 85. -/
def rOldT : Record := { rank := 1, profile := "p1", user := "[x](y)", solution := "old", score := .fin 85 }

/-- A later row of the same participant with the same score but
different display fields. -/
def rNewT : Record := { rank := 2, profile := "p2", user := "[x](y)", solution := "new", score := .fin 85 }

/-- The document of spec Scenario 3: existing table `alice: 90.0,
bob: 85.0`. -/
def docScenario3 : String :=
  "H\n<!-- leader-board-begins -->\n| Rank | Profile Image | GitHub Username | Solution | Accuracy % |\n|---|---|---|---|---|\n| 1 | pa | [alice](ga) | sa | 90.0 |\n| 2 | pb | [bob](gb) | sb | 85.0 |\n<!-- leader-board-ends -->\n"

/-- A document whose single data row has a non-numeric score cell. -/
def docBadScore : String :=
  "H\n<!-- leader-board-begins -->\n| Rank | Profile Image | GitHub Username | Solution | Accuracy % |\n|---|---|---|---|---|\n| 1 | pa | [a](u) | sa | xx |\n<!-- leader-board-ends -->\n"

/-- A document whose single row names alice with non-GitHub link
markup. -/
def docTwoAlice : String :=
  "H\n<!-- leader-board-begins -->\n| Rank | Profile Image | GitHub Username | Solution | Accuracy % |\n|---|---|---|---|---|\n| 1 | pa | [alice](https://example.com/alice) | sa | 90.0 |\n<!-- leader-board-ends -->\n"

/-- A single-record list for render-shape statements. -/
def recsOne : List Record :=
  [{ rank := 1, profile := "p", user := "[a](u)", solution := "s", score := .fin 90 }]

/-- A document whose single data row has the score cell `inf` — a cell
that does not denote a finite number yet is accepted by `float()`. -/
def docInf : String :=
  "H\n<!-- leader-board-begins -->\n| Rank | Profile Image | GitHub Username | Solution | Accuracy % |\n|---|---|---|---|---|\n| 1 | pa | [a](u) | sa | inf |\n<!-- leader-board-ends -->\n"

/-! ### Helper lemmas -/

/-- Unpack `Except.map` producing `ok`. -/
theorem except_map_ok {ε α β : Type} {f : α → β} {x : Except ε α} {b : β}
    (h : x.map f = .ok b) : ∃ a, x = .ok a ∧ b = f a := by
  cases x with
  | error e => simp [Except.map] at h
  | ok a => exact ⟨a, rfl, by simpa [Except.map] using h.symm⟩

/-- `firstMax` returns nothing only on the empty list. -/
theorem firstMax_eq_none {l : List Record} : firstMax l = none ↔ l = [] := by
  cases l with
  | nil => simp [firstMax]
  | cons x xs =>
    cases hx : firstMax xs with
    | none => simp [firstMax, hx]
    | some m =>
      simp only [firstMax, hx]
      constructor
      · intro h
        by_cases hlt : x.score < m.score
        · rw [if_pos hlt] at h; cases h
        · rw [if_neg hlt] at h; cases h
      · intro h; cases h

/-- The record `firstMax` returns is a member of the list. -/
theorem firstMax_mem : ∀ {l : List Record} {r : Record}, firstMax l = some r → r ∈ l := by
  intro l
  induction l with
  | nil => intro r h; simp [firstMax] at h
  | cons x xs ih =>
    intro r h
    cases hx : firstMax xs with
    | none => simp only [firstMax, hx] at h; cases h; exact List.mem_cons_self _ _
    | some m =>
      simp only [firstMax, hx] at h
      by_cases hlt : x.score < m.score
      · rw [if_pos hlt] at h; cases h; exact List.mem_cons_of_mem _ (ih hx)
      · rw [if_neg hlt] at h; cases h; exact List.mem_cons_self _ _

/-- The record `firstMax` returns has the maximal score of the list. -/
theorem firstMax_le : ∀ {l : List Record} {r : Record}, firstMax l = some r →
    ∀ s ∈ l, s.score ≤ r.score := by
  intro l
  induction l with
  | nil => intro r h; simp [firstMax] at h
  | cons x xs ih =>
    intro r h s hs
    cases hx : firstMax xs with
    | none =>
      simp only [firstMax, hx] at h; cases h
      rcases List.mem_cons.mp hs with hsx | hsxs
      · rw [hsx]; exact pyfLe_refl _
      · rw [firstMax_eq_none.mp hx] at hsxs; cases hsxs
    | some m =>
      simp only [firstMax, hx] at h
      by_cases hlt : x.score < m.score
      · rw [if_pos hlt] at h; cases h
        rcases List.mem_cons.mp hs with hsx | hsxs
        · rw [hsx]; exact pyfLe_of_lt hlt
        · exact ih hx s hsxs
      · rw [if_neg hlt] at h; cases h
        rcases List.mem_cons.mp hs with hsx | hsxs
        · rw [hsx]; exact pyfLe_refl _
        · exact pyfLe_trans (ih hx s hsxs) (pyfLe_of_not_lt hlt)

/-- `firstMax` returns the first of the maximal-score elements: all
elements before it are strictly smaller. -/
theorem firstMax_split : ∀ {l : List Record} {r : Record}, firstMax l = some r →
    ∃ l1 l2, l = l1 ++ r :: l2 ∧ ∀ s ∈ l1, s.score < r.score := by
  intro l
  induction l with
  | nil => intro r h; simp [firstMax] at h
  | cons x xs ih =>
    intro r h
    cases hx : firstMax xs with
    | none =>
      simp only [firstMax, hx] at h; cases h
      exact ⟨[], xs, rfl, by simp⟩
    | some m =>
      simp only [firstMax, hx] at h
      by_cases hlt : x.score < m.score
      · rw [if_pos hlt] at h; cases h
        obtain ⟨l1, l2, hsplit, hstrict⟩ := ih hx
        refine ⟨x :: l1, l2, by rw [hsplit]; rfl, ?_⟩
        intro s hs
        rcases List.mem_cons.mp hs with hsx | hsl1
        · rw [hsx]; exact hlt
        · exact hstrict s hsl1
      · rw [if_neg hlt] at h; cases h
        exact ⟨[], xs, rfl, by simp⟩

/-- The retained record of a group carries the group's key. -/
theorem groupMax_user {all : List Record} {k : String} {r : Record}
    (h : groupMax all k = some r) : r.user = k := by
  have hm := firstMax_mem h
  rw [List.mem_filter] at hm
  exact of_decide_eq_true hm.2

/-- Every user of a retained record is one of the group keys. -/
theorem users_filterMap_subset (all : List Record) (keys : List String) (u : String)
    (h : u ∈ (keys.filterMap (groupMax all)).map (·.user)) : u ∈ keys := by
  obtain ⟨r, hr, hru⟩ := List.mem_map.mp h
  obtain ⟨k, hk, hgk⟩ := List.mem_filterMap.mp hr
  rw [← hru, groupMax_user hgk]
  exact hk

/-- Distinct group keys give retained records with distinct users. -/
theorem nodup_users_filterMap (all : List Record) {keys : List String} (h : keys.Nodup) :
    ((keys.filterMap (groupMax all)).map (·.user)).Nodup := by
  induction keys with
  | nil => simp
  | cons k ks ih =>
    rw [List.nodup_cons] at h
    rw [List.filterMap_cons]
    cases hg : groupMax all k with
    | none => exact ih h.2
    | some r =>
      rw [List.map_cons]
      refine List.nodup_cons.mpr ⟨?_, ih h.2⟩
      intro hmem
      have hks := users_filterMap_subset all ks _ hmem
      rw [groupMax_user hg] at hks
      exact h.1 hks

/-- The sorted key list has no duplicates. -/
theorem sortedKeys_nodup (users : List String) : (sortedKeys users).Nodup :=
  ((List.perm_insertionSort keyLe _).nodup_iff).mpr (List.nodup_dedup _)

/-- Re-ranking does not change the user cells. -/
theorem rerankFrom_map_user : ∀ (n : Int) (l : List Record),
    (rerankFrom n l).map (·.user) = l.map (·.user) := by
  intro n l
  induction l generalizing n with
  | nil => rfl
  | cons r rs ih => simp [rerankFrom, ih]

/-- Re-ranking does not change the scores. -/
theorem rerankFrom_map_score : ∀ (n : Int) (l : List Record),
    (rerankFrom n l).map (·.score) = l.map (·.score) := by
  intro n l
  induction l generalizing n with
  | nil => rfl
  | cons r rs ih => simp [rerankFrom, ih]

/-- The ranks after re-ranking are consecutive integers from `n`. -/
theorem rerankFrom_map_rank : ∀ (n : Int) (l : List Record),
    (rerankFrom n l).map (·.rank) = (List.range l.length).map (fun i : ℕ => n + (i : Int)) := by
  intro n l
  induction l generalizing n with
  | nil => simp [rerankFrom]
  | cons r rs ih =>
    rw [rerankFrom, List.map_cons, ih (n + 1), List.length_cons, List.range_succ_eq_map,
      List.map_cons, List.map_map]
    congr 1
    · simp
    · refine List.map_congr_left ?_
      intro i _
      simp only [Function.comp]
      push_cast
      ring

/-- The descending sort is a permutation of its input. -/
theorem sortDesc_perm (l : List Record) : (sortDesc l).Perm l :=
  List.perm_insertionSort geScore l

/-! ### Claim theorems -/

/-- C1: for every document whose table region parses successfully and
every new submission, the merged record sequence contains no two
records with the same participant identifier (user cell). -/
theorem C1_dedup_invariant (p : String) (a : ℚ) (u : String) (content : String)
    (l : List Record) (h : mergedRecords p a u content = .ok l) :
    (l.map (·.user)).Nodup := by
  obtain ⟨all, _, hl⟩ := except_map_ok h
  subst hl
  rw [rerank, rerankFrom_map_user]
  rw [((sortDesc_perm (dedupRecords all)).map (·.user)).nodup_iff]
  exact nodup_users_filterMap all (sortedKeys_nodup _)

/-- Witness for C1 at a concrete document and submission. -/
theorem C1_dedup_invariant_witness :
    mergedRecords "p" 80 "al" docSingle = .ok outSingle ∧ (outSingle.map (·.user)).Nodup :=
  ⟨by rfl, C1_dedup_invariant "p" 80 "al" docSingle outSingle (by rfl)⟩

/-- C2: for every document whose table region parses successfully and
every new submission, the merged sequence's ranks are exactly
1, 2, ..., N in order, and scores are non-increasing along it. -/
theorem C2_ranking_invariant (p : String) (a : ℚ) (u : String) (content : String)
    (l : List Record) (h : mergedRecords p a u content = .ok l) :
    l.map (·.rank) = (List.range l.length).map (fun i : ℕ => (i : Int) + 1) ∧
    List.Chain' (fun x y => y.score ≤ x.score) l := by
  obtain ⟨all, _, hl⟩ := except_map_ok h
  subst hl
  constructor
  · rw [rerank, rerankFrom_map_rank]
    have hlen : (rerankFrom 1 (sortDesc (dedupRecords all))).length =
        (sortDesc (dedupRecords all)).length := by
      have := congrArg List.length (rerankFrom_map_user 1 (sortDesc (dedupRecords all)))
      simpa using this
    rw [hlen]
    exact List.map_congr_left (fun i _ => by ring)
  · have hchain : List.Chain' (fun x y : PyF => y ≤ x)
        ((rerank (sortDesc (dedupRecords all))).map Record.score) := by
      rw [rerank, rerankFrom_map_score, sortDesc]
      refine List.Pairwise.chain' ?_
      rw [List.pairwise_map]
      exact List.sorted_insertionSort geScore (dedupRecords all)
    exact (List.chain'_map Record.score).mp hchain

/-- Witness for C2 at a concrete document and submission. -/
theorem C2_ranking_invariant_witness :
    mergedRecords "p" 80 "al" docSingle = .ok outSingle ∧
    (outSingle.map (·.rank) = (List.range outSingle.length).map (fun i : ℕ => (i : Int) + 1) ∧
      List.Chain' (fun x y => y.score ≤ x.score) outSingle) :=
  ⟨by rfl, C2_ranking_invariant "p" 80 "al" docSingle outSingle (by rfl)⟩

/-- C3 (code bug): with the begin marker absent from the document, the
code does not fail at all: `str.find` yields `-1`, the splice silently
cuts the document at a nonsense offset, and a corrupted document is
written.  The claim (a `MarkerNotFoundError` and no write) describes
behaviour the source does not implement. -/
theorem C3_marker_bug :
    (generate_leaderboard "p" 80 "a" docNoBegin).toOption.isSome = true ∧
    (generate_leaderboard "p" 80 "a" docNoBegin).toOption ≠ some docNoBegin :=
  ⟨rfl, by decide⟩

/-- Splitting a filtered list lifts back to a split of the original
list whose left part filters to the left part. -/
theorem filter_split {p : Record → Bool} : ∀ {all m1 m2 : List Record} {r : Record},
    all.filter p = m1 ++ r :: m2 → ∃ l1 l2, all = l1 ++ r :: l2 ∧ l1.filter p = m1 := by
  intro all
  induction all with
  | nil => intro m1 m2 r h; simp at h
  | cons x t ih =>
    intro m1 m2 r h
    by_cases hx : p x = true
    · rw [List.filter_cons_of_pos hx] at h
      cases m1 with
      | nil =>
        rw [List.nil_append] at h
        injection h with h1 h2
        exact ⟨[], t, by rw [h1]; rfl, by simp⟩
      | cons y m1' =>
        rw [List.cons_append] at h
        injection h with h1 h2
        obtain ⟨l1, l2, hsp, hf⟩ := ih h2
        exact ⟨x :: l1, l2, by rw [List.cons_append, hsp],
          by rw [List.filter_cons_of_pos hx, hf, h1]⟩
    · rw [List.filter_cons_of_neg (by simpa using hx)] at h
      obtain ⟨l1, l2, hsp, hf⟩ := ih h
      exact ⟨x :: l1, l2, by rw [List.cons_append, hsp],
        by rw [List.filter_cons_of_neg (by simpa using hx), hf]⟩

/-- C4 (counterexample): with two records of the same participant and
equal scores, deduplication retains the EARLIER record (pandas
`idxmax` returns the first maximal label), so the claim's "the record
that appears later in the input sequence is retained" is false: the
repeat submission does not refresh the display fields. -/
theorem C4_dedup_counterexample :
    dedupRecords [rOldT, rNewT] = [rOldT] ∧
    dedupRecords [rOldT, rNewT] ≠ [rNewT] ∧ rOldT.solution ≠ rNewT.solution :=
  ⟨by rfl, by decide, by decide⟩

/-- C4 (amended): the record retained for a participant is a record of
the input with the maximum score of the participant's group, and it is
the FIRST such record in input order: every earlier record of the same
participant has a strictly smaller score. -/
theorem C4_dedup_retains_first_max (all : List Record) (r : Record)
    (h : r ∈ dedupRecords all) :
    r ∈ all ∧ (∀ s ∈ all, s.user = r.user → s.score ≤ r.score) ∧
    ∃ l1 l2, all = l1 ++ r :: l2 ∧ ∀ s ∈ l1, s.user = r.user → s.score < r.score := by
  obtain ⟨k, _, hgk⟩ := List.mem_filterMap.mp h
  have hku : r.user = k := groupMax_user hgk
  have hfm : firstMax (all.filter (fun s => s.user = k)) = some r := hgk
  refine ⟨List.mem_of_mem_filter (firstMax_mem hfm), ?_, ?_⟩
  · intro s hs hsu
    refine firstMax_le hfm s (List.mem_filter.mpr ⟨hs, ?_⟩)
    exact decide_eq_true (by rw [hsu, hku])
  · obtain ⟨m1, m2, hm, hstrict⟩ := firstMax_split hfm
    obtain ⟨l1, l2, hsp, hf⟩ := filter_split hm
    refine ⟨l1, l2, hsp, ?_⟩
    intro s hs hsu
    refine hstrict s ?_
    rw [← hf]
    exact List.mem_filter.mpr ⟨hs, decide_eq_true (by rw [hsu, hku])⟩

/-- Witness for the amended C4 at a concrete two-record group. -/
theorem C4_dedup_retains_first_max_witness :
    rOldT ∈ dedupRecords [rOldT, rNewT] ∧
    (rOldT ∈ [rOldT, rNewT] ∧
      (∀ s ∈ [rOldT, rNewT], s.user = rOldT.user → s.score ≤ rOldT.score) ∧
      ∃ l1 l2, [rOldT, rNewT] = l1 ++ rOldT :: l2 ∧
        ∀ s ∈ l1, s.user = rOldT.user → s.score < rOldT.score) :=
  ⟨by decide, C4_dedup_retains_first_max [rOldT, rNewT] rOldT (by decide)⟩

/-- Equal-score filtering ignores an ordered insertion of a record
with a different score. -/
theorem filter_score_orderedInsert_ne (c : PyF) {x : Record} (hx : ¬ x.score = c) :
    ∀ l : List Record, (List.orderedInsert geScore x l).filter (fun s => s.score = c) =
      l.filter (fun s => s.score = c) := by
  intro l
  induction l with
  | nil => simp [List.orderedInsert, hx]
  | cons y ys ih =>
    rw [List.orderedInsert]
    by_cases hle : geScore x y
    · rw [if_pos hle, List.filter_cons_of_neg (by simpa using hx)]
    · rw [if_neg hle]
      by_cases hyc : y.score = c
      · rw [List.filter_cons_of_pos (by simpa using hyc),
          List.filter_cons_of_pos (by simpa using hyc), ih]
      · rw [List.filter_cons_of_neg (by simpa using hyc),
          List.filter_cons_of_neg (by simpa using hyc), ih]

/-- A record inserted by `orderedInsert geScore` lands BEFORE every
equal-score record already present (`orderedInsert` inserts before the
first element the relation accepts, and equal scores are accepted), so
the insertion sort is stable on equal scores. -/
theorem filter_score_orderedInsert_eq (c : PyF) {x : Record} (hx : x.score = c) :
    ∀ l : List Record, (List.orderedInsert geScore x l).filter (fun s => s.score = c) =
      x :: l.filter (fun s => s.score = c) := by
  intro l
  induction l with
  | nil => simp [List.orderedInsert, hx]
  | cons y ys ih =>
    rw [List.orderedInsert]
    by_cases hle : geScore x y
    · rw [if_pos hle, List.filter_cons_of_pos (by simpa using hx)]
    · rw [if_neg hle]
      have hy : ¬ y.score = c := by
        intro hyc
        refine hle ?_
        show y.score ≤ x.score
        rw [hyc, hx]
        exact pyfLe_refl c
      rw [List.filter_cons_of_neg (by simpa using hy), ih,
        List.filter_cons_of_neg (by simpa using hy)]

/-- The descending insertion sort is stable on equal scores: records
of one score value keep their input order. -/
theorem filter_score_insertionSort (c : PyF) : ∀ l : List Record,
    (List.insertionSort geScore l).filter (fun s => s.score = c) =
      l.filter (fun s => s.score = c) := by
  intro l
  induction l with
  | nil => rfl
  | cons x t ih =>
    rw [List.insertionSort]
    by_cases hx : x.score = c
    · rw [filter_score_orderedInsert_eq c hx, ih, List.filter_cons_of_pos (by simpa using hx)]
    · rw [filter_score_orderedInsert_ne c hx, ih, List.filter_cons_of_neg (by simpa using hx)]

/-- C5: the sort by score descending is stable — records with equal
scores keep the relative order they held after deduplication (pandas
`nargsort` reverses the values before the ascending argsort and the
indexer after it, a stable descending sort) — and in spec Scenario 3
(existing `alice: 90.0, bob: 85.0` plus submission `(carol, 85.0)`)
the merged order is alice (rank 1), bob (rank 2), carol (rank 3). -/
theorem C5_sort_stable_ties :
    (∀ (l : List Record) (c : PyF),
      (sortDesc l).filter (fun s => s.score = c) = l.filter (fun s => s.score = c)) ∧
    (mergedRecords "p" 85 "carol" docScenario3).map (fun l => l.map (·.user)) =
      .ok ["[alice](ga)", "[bob](gb)", "[carol](https://github.com/carol)"] := by
  constructor
  · intro l c
    rw [sortDesc, filter_score_insertionSort]
  · rfl

/-- C9 (counterexample): a score of 80.0 is rendered as `80`, not as
the two-decimal `80.00` the claim requires (pandas `to_markdown`
formats floats with Python's `"g"` format). -/
theorem C9_format_counterexample : fmtG 80 = "80" ∧ fmtG 80 ≠ "80.00" :=
  ⟨by rfl, by decide⟩

/-- C9 (amended): scores are rendered with Python's general float
format `"g"`: up to six significant digits, trailing zeros dropped,
scientific notation outside `[1e-4, 1e6)`; e.g. 80.0 renders `80`,
97.5 renders `97.5`, 100/3 renders `33.3333`, 0.0001 renders `0.0001`
and 1000000.0 renders `1e+06`. -/
theorem C9_format_general :
    fmtG 80 = "80" ∧ fmtG (mkRat 195 2) = "97.5" ∧ fmtG (mkRat 100 3) = "33.3333" ∧
    fmtG (mkRat 1 10000) = "0.0001" ∧ fmtG 1000000 = "1e+06" :=
  ⟨by rfl, by rfl, by rfl, by rfl, by rfl⟩

/-- C6 (counterexample): a row whose score cell is `inf` — a cell that
does not parse as a FINITE number, so inside the claim's hypothesis —
does not abort the update at all: `float("inf")` succeeds, the row
joins the merge with its infinite score, and the document is written
(and changed).  The claim's "fails with RowParseError and the document
is not written" is false for non-finite score cells. -/
theorem C6_nonfinite_counterexample :
    (extractedRows docInf).map Row.score = ["inf"] ∧
    pyFloat "inf".toList = some PyF.pinf ∧
    (generate_leaderboard "p" 80 "b" docInf).toOption.isSome = true ∧
    (generate_leaderboard "p" 80 "b" docInf).toOption ≠ some docInf :=
  ⟨by rfl, by rfl, by rfl, by decide⟩

/-- C6 (amended): if any extracted row has a rank cell that
`astype(int)` cannot parse or a score cell that `astype(float)` cannot
parse AT ALL — the non-finite literals `inf`/`infinity`/`nan` are
accepted and flow into the merge — the update fails with the row-parse
error identifying an offending row, and no document is written (the
error is raised before the output file is opened). -/
theorem C6_row_parse_error (p : String) (a : ℚ) (u : String) (content : String)
    (h : ∃ r ∈ extractedRows content, (badRank r || badScore r) = true) :
    ∃ r, r ∈ extractedRows content ∧ (badRank r || badScore r) = true ∧
      generate_leaderboard p a u content = .error (.rowParse r) := by
  cases hf : (extractedRows content).find? badRank with
  | some r0 =>
    refine ⟨r0, List.mem_of_find?_eq_some hf, ?_, ?_⟩
    · simp [List.find?_some hf]
    · simp [generate_leaderboard, mergedRecords, allRecordsE, parseRows, hf, Except.map]
  | none =>
    have hnone : ∀ x ∈ extractedRows content, ¬ badRank x = true := List.find?_eq_none.mp hf
    obtain ⟨r, hr, hbad⟩ := h
    have hbs : badScore r = true := by
      cases (Bool.or_eq_true _ _).mp hbad with
      | inl h1 => exact absurd h1 (hnone r hr)
      | inr h2 => exact h2
    cases hs : (extractedRows content).find? badScore with
    | none => exact absurd hbs (List.find?_eq_none.mp hs r hr)
    | some r1 =>
      refine ⟨r1, List.mem_of_find?_eq_some hs, ?_, ?_⟩
      · simp [List.find?_some hs]
      · simp [generate_leaderboard, mergedRecords, allRecordsE, parseRows, hf, hs, Except.map]

/-- Witness for C6: a document whose score cell is `xx`. -/
theorem C6_row_parse_error_witness :
    (∃ r ∈ extractedRows docBadScore, (badRank r || badScore r) = true) ∧
    ∃ r, r ∈ extractedRows docBadScore ∧ (badRank r || badScore r) = true ∧
      generate_leaderboard "p" 80 "a" docBadScore = .error (.rowParse r) :=
  ⟨by decide, C6_row_parse_error "p" 80 "a" docBadScore (by decide)⟩

/-- A successful `strFindAux` result marks an occurrence of the
pattern that lies inside the string. -/
theorem strFindAux_spec {p : List Char} : ∀ {h : List Char} {i : Nat},
    strFindAux p h = some i →
    (h.drop i).take p.length = p ∧ i + p.length ≤ h.length := by
  intro h
  induction h with
  | nil =>
    intro i hf
    simp only [strFindAux] at hf
    split at hf
    · cases hf
      constructor
      · simpa using (by assumption : p = [])
      · simp [(by assumption : p = [])]
    · cases hf
  | cons c rest ih =>
    intro i hf
    simp only [strFindAux] at hf
    by_cases htk : (c :: rest).take p.length = p
    · rw [if_pos htk] at hf
      cases hf
      refine ⟨by simpa using htk, ?_⟩
      have hlen := congrArg List.length htk
      rw [List.length_take] at hlen
      simp only [List.length_cons] at hlen ⊢
      omega
    · rw [if_neg htk] at hf
      cases hj : strFindAux p rest with
      | none => rw [hj] at hf; cases hf
      | some j =>
        rw [hj] at hf
        simp only [Option.map_some'] at hf
        cases hf
        obtain ⟨hd, hl⟩ := ih hj
        refine ⟨by simpa [List.drop_succ_cons] using hd, ?_⟩
        simp only [List.length_cons]
        omega

/-- A nonnegative `strFind` result comes from `strFindAux`. -/
theorem strFind_nat {h p : List Char} {s : Nat} (hf : strFind h p = (s : Int)) :
    strFindAux p h = some s := by
  cases hj : strFindAux p h with
  | none =>
    simp only [strFind, hj] at hf
    exact absurd hf (by omega)
  | some j =>
    simp only [strFind, hj] at hf
    exact congrArg some (by exact_mod_cast hf)

/-- `pyClamp` is the identity on in-range natural indices. -/
theorem pyClamp_nat (n k : Nat) (hk : k ≤ n) : pyClamp n (k : Int) = k := by
  unfold pyClamp
  rw [if_pos (Int.natCast_nonneg k)]
  omega

/-- A Python slice from 0 to an in-range index is a `take`. -/
theorem pySlice_front (c : List Char) (k : Nat) (hk : k ≤ c.length) :
    pySlice c 0 (k : Int) = c.take k := by
  unfold pySlice
  rw [show (0 : Int) = ((0 : Nat) : Int) from rfl, pyClamp_nat _ _ (Nat.zero_le _),
    pyClamp_nat _ _ hk, List.drop_zero]

/-- A Python slice from an in-range index to the length is a `drop`. -/
theorem pySlice_suffix (content : String) (e : Nat) (he : e ≤ content.toList.length) :
    pySlice content.toList (e : Int) (content.length : Int) = content.toList.drop e := by
  unfold pySlice
  rw [show (content.length : Int) = ((content.toList.length : Nat) : Int) from rfl,
    pyClamp_nat _ _ le_rfl, pyClamp_nat _ _ he, List.take_length]

/-- C7: when both markers are present in order and the update succeeds,
the written document is exactly the original prefix through the begin
marker, the rendered table, and the original suffix from the end
marker on; prefix and suffix are byte-identical slices of the original
document, the prefix ends with the begin marker and the suffix starts
with the end marker. -/
theorem C7_splice_fidelity (p : String) (a : ℚ) (u : String) (content out : String)
    (l : List Record) (s e : Nat)
    (hs : strFind content.toList beginMarker.toList = (s : Int))
    (he : strFind content.toList endMarker.toList = (e : Int))
    (_hord : s + beginMarker.length ≤ e)
    (hm : mergedRecords p a u content = .ok l)
    (hg : generate_leaderboard p a u content = .ok out) :
    out = String.mk (content.toList.take (s + beginMarker.length) ++
      (toMarkdown l).toList ++ content.toList.drop e) ∧
    (content.toList.take (s + beginMarker.length)).drop s = beginMarker.toList ∧
    (content.toList.drop e).take endMarker.length = endMarker.toList := by
  obtain ⟨hds, hls⟩ := strFindAux_spec (strFind_nat hs)
  obtain ⟨hde, hle⟩ := strFindAux_spec (strFind_nat he)
  have hblen : beginMarker.toList.length = beginMarker.length := rfl
  have helen : endMarker.toList.length = endMarker.length := rfl
  have hls' : s + beginMarker.length ≤ content.toList.length := by omega
  have hle' : e ≤ content.toList.length := by omega
  refine ⟨?_, ?_, by rw [← helen]; exact hde⟩
  · unfold generate_leaderboard at hg
    rw [hm] at hg
    simp only [Except.map] at hg
    injection hg with hg
    rw [← hg, hs, he]
    rw [show ((s : Int) + (beginMarker.length : Int)) = ((s + beginMarker.length : Nat) : Int)
      by push_cast; ring]
    rw [pySlice_front _ _ hls', pySlice_suffix content e hle']
  · rw [List.drop_take]
    have hsub : s + beginMarker.length - s = beginMarker.length := by omega
    rw [hsub, ← hblen]
    exact hds

/-- Witness for C7 at a concrete document, with the marker positions
evaluated explicitly. -/
theorem C7_splice_fidelity_witness :
    strFind docSingle.toList beginMarker.toList = ((2 : Nat) : Int) ∧
    strFind docSingle.toList endMarker.toList = ((149 : Nat) : Int) ∧
    2 + beginMarker.length ≤ 149 ∧
    mergedRecords "p" 80 "al" docSingle = .ok outSingle ∧
    generate_leaderboard "p" 80 "al" docSingle =
      .ok ((generate_leaderboard "p" 80 "al" docSingle).toOption.getD "") ∧
    ((generate_leaderboard "p" 80 "al" docSingle).toOption.getD "" =
      String.mk (docSingle.toList.take (2 + beginMarker.length) ++
        (toMarkdown outSingle).toList ++ docSingle.toList.drop 149) ∧
     (docSingle.toList.take (2 + beginMarker.length)).drop 2 = beginMarker.toList ∧
     (docSingle.toList.drop 149).take endMarker.length = endMarker.toList) :=
  ⟨by rfl, by rfl, by decide, by rfl, by rfl,
   C7_splice_fidelity "p" 80 "al" docSingle _ outSingle 2 149
     (by rfl) (by rfl) (by decide) (by rfl) (by rfl)⟩

/-- `splitNLc` never returns an empty list of lines. -/
theorem splitNLc_ne_nil : ∀ l : List Char, splitNLc l ≠ [] := by
  intro l
  cases l with
  | nil => simp [splitNLc]
  | cons c r =>
    simp only [splitNLc]
    split
    · simp
    · split <;> simp

/-- A newline-free string is a single line. -/
theorem splitNLc_no_nl : ∀ (a : List Char), '\n' ∉ a → splitNLc a = [a] := by
  intro a
  induction a with
  | nil => intro _; rfl
  | cons c r ih =>
    intro h
    have hc : ¬ c = '\n' := fun hh => h (hh ▸ List.mem_cons_self c r)
    have hr : '\n' ∉ r := fun hh => h (List.mem_cons_of_mem _ hh)
    simp only [splitNLc]
    rw [if_neg hc, ih hr]

/-- Splitting after a newline-free prefix peels off one line. -/
theorem splitNLc_append : ∀ (a : List Char), '\n' ∉ a → ∀ r : List Char,
    splitNLc (a ++ '\n' :: r) = a :: splitNLc r := by
  intro a
  induction a with
  | nil =>
    intro _ r
    simp [splitNLc]
  | cons c t ih =>
    intro h r
    have hc : ¬ c = '\n' := fun hh => h (hh ▸ List.mem_cons_self c t)
    have ht : '\n' ∉ t := fun hh => h (List.mem_cons_of_mem _ hh)
    rw [List.cons_append]
    simp only [splitNLc]
    rw [if_neg hc, ih ht r]

/-- `String.mk` is the left inverse of `String.toList`. -/
theorem strMk_toList (s : String) : String.mk s.toList = s := rfl

/-- String concatenation concatenates the character lists. -/
theorem toList_append (a b : String) : (a ++ b).toList = a.toList ++ b.toList :=
  String.data_append a b

/-- Splitting the newline-join of newline-free lines recovers the
lines. -/
theorem linesOf_joinNL : ∀ (L : List String), L ≠ [] → (∀ x ∈ L, '\n' ∉ x.toList) →
    linesOf (joinNL L) = L := by
  intro L
  induction L with
  | nil => intro h; exact absurd rfl h
  | cons sline t ih =>
    intro _ hnl
    cases t with
    | nil =>
      show linesOf (joinNL [sline]) = [sline]
      unfold linesOf joinNL
      rw [splitNLc_no_nl sline.toList (hnl sline (List.mem_cons_self _ _))]
      simp [strMk_toList]
    | cons s2 t2 =>
      show linesOf (sline ++ "\n" ++ joinNL (s2 :: t2)) = sline :: s2 :: t2
      unfold linesOf
      have hsplit : (sline ++ "\n" ++ joinNL (s2 :: t2)).toList =
          sline.toList ++ '\n' :: (joinNL (s2 :: t2)).toList := by
        rw [toList_append, toList_append, List.append_assoc]
        rfl
      rw [hsplit, splitNLc_append sline.toList (hnl sline (List.mem_cons_self _ _))]
      rw [List.map_cons, strMk_toList]
      have htail : (splitNLc (joinNL (s2 :: t2)).toList).map String.mk = s2 :: t2 :=
        ih (by simp) (fun x hx => hnl x (List.mem_cons_of_mem _ hx))
      rw [htail]

/-- C8 (counterexample): rendering a one-record table yields three
lines, not the single line per record the claim demands — the header
labels row and separator row are regenerated by `to_markdown` on every
update, inside the marker region. -/
theorem C8_render_counterexample :
    (linesOf (toMarkdown recsOne)).length = 3 ∧
    (linesOf (toMarkdown recsOne)).length ≠ recsOne.length :=
  ⟨by rfl, by decide⟩

/-- C8 (amended): the rendered markup consists of the header labels
row, the header separator row, and then exactly one data row per
record, one row per line, in rank order. -/
theorem C8_render_lines (recs : List Record)
    (hnl : ∀ x ∈ tableLines recs, '\n' ∉ x.toList) :
    linesOf (toMarkdown recs) = tableLines recs ∧
    (tableLines recs).length = recs.length + 2 ∧
    (tableLines recs).drop 2 = recs.map (dataLine recs) := by
  refine ⟨?_, by simp [tableLines], rfl⟩
  rw [toMarkdown]
  exact linesOf_joinNL _ (by simp [tableLines]) hnl

/-- Witness for the amended C8 at a concrete one-record table. -/
theorem C8_render_lines_witness :
    (∀ x ∈ tableLines recsOne, '\n' ∉ x.toList) ∧
    (linesOf (toMarkdown recsOne) = tableLines recsOne ∧
     (tableLines recsOne).length = recsOne.length + 2 ∧
     (tableLines recsOne).drop 2 = recsOne.map (dataLine recsOne)) :=
  ⟨by decide, C8_render_lines recsOne (by decide)⟩

/-- Every user cell occurring in the input survives deduplication:
some retained record carries exactly that cell string. -/
theorem mem_user_dedupRecords {all : List Record} {u : String}
    (h : u ∈ all.map (·.user)) : ∃ x ∈ dedupRecords all, x.user = u := by
  have hk : u ∈ sortedKeys (all.map (·.user)) :=
    (List.mem_insertionSort keyLe).mpr (List.mem_dedup.mpr h)
  obtain ⟨s, hs, hsu⟩ := List.mem_map.mp h
  have hfil : s ∈ all.filter (fun r => r.user = u) :=
    List.mem_filter.mpr ⟨hs, decide_eq_true hsu⟩
  cases hfm : firstMax (all.filter (fun r => r.user = u)) with
  | none =>
    rw [firstMax_eq_none.mp hfm] at hfil
    cases hfil
  | some r =>
    exact ⟨r, List.mem_filterMap.mpr ⟨u, hk, hfm⟩, groupMax_user hfm⟩

/-- C10: deduplication keys on the full rendered participant cell
text: any two input records (existing or new) whose user cells are
different strings are both represented in the merged output, by
distinct records — even when the cells name the same human with
different link markup. -/
theorem C10_distinct_cells_kept (p : String) (a : ℚ) (u : String) (content : String)
    (all l : List Record) (r1 r2 : Record)
    (hall : allRecordsE p a u content = .ok all)
    (hm : mergedRecords p a u content = .ok l)
    (h1 : r1 ∈ all) (h2 : r2 ∈ all) (hne : r1.user ≠ r2.user) :
    (∃ x ∈ l, x.user = r1.user) ∧ (∃ y ∈ l, y.user = r2.user) ∧
    ∀ x ∈ l, ∀ y ∈ l, x.user = r1.user → y.user = r2.user → x ≠ y := by
  have hl : l = rerank (sortDesc (dedupRecords all)) := by
    unfold mergedRecords at hm
    rw [hall] at hm
    simp only [Except.map] at hm
    exact (Except.ok.inj hm).symm
  have key : ∀ rr : Record, rr ∈ all → ∃ x ∈ l, x.user = rr.user := by
    intro rr hrr
    obtain ⟨x, hx, hxu⟩ :=
      mem_user_dedupRecords (List.mem_map.mpr ⟨rr, hrr, rfl⟩)
    have hxl : rr.user ∈ l.map (·.user) := by
      rw [hl, rerank, rerankFrom_map_user]
      exact List.mem_map.mpr ⟨x, ((sortDesc_perm _).mem_iff).mpr hx, hxu⟩
    obtain ⟨y, hy, hyu⟩ := List.mem_map.mp hxl
    exact ⟨y, hy, hyu⟩
  refine ⟨key r1 h1, key r2 h2, ?_⟩
  intro x _ y _ hx hy hxy
  exact hne (by rw [← hx, hxy, hy])

/-- The parsed-plus-appended record list for the C10 witness document. -/
def rAliceOld : Record :=
  { rank := 1, profile := "pa", user := "[alice](https://example.com/alice)",
    solution := "sa", score := .fin 90 }

/-- The appended new record of the C10 witness submission. -/
def rAliceNew : Record := newEntry "p" 80 "alice" 1

/-- Witness for C10: an existing alice row with non-GitHub markup plus
a new alice submission; both cells survive the merge as distinct
entries. -/
theorem C10_distinct_cells_kept_witness :
    allRecordsE "p" 80 "alice" docTwoAlice = .ok [rAliceOld, rAliceNew] ∧
    mergedRecords "p" 80 "alice" docTwoAlice =
      .ok [rAliceOld, { rAliceNew with rank := 2 }] ∧
    rAliceOld ∈ [rAliceOld, rAliceNew] ∧ rAliceNew ∈ [rAliceOld, rAliceNew] ∧
    rAliceOld.user ≠ rAliceNew.user ∧
    ((∃ x ∈ [rAliceOld, { rAliceNew with rank := 2 }], x.user = rAliceOld.user) ∧
     (∃ y ∈ [rAliceOld, { rAliceNew with rank := 2 }], y.user = rAliceNew.user) ∧
     ∀ x ∈ [rAliceOld, { rAliceNew with rank := 2 }],
       ∀ y ∈ [rAliceOld, { rAliceNew with rank := 2 }],
         x.user = rAliceOld.user → y.user = rAliceNew.user → x ≠ y) :=
  ⟨by rfl, by rfl, by decide, by decide, by decide,
   C10_distinct_cells_kept "p" 80 "alice" docTwoAlice
     [rAliceOld, rAliceNew] [rAliceOld, { rAliceNew with rank := 2 }]
     rAliceOld rAliceNew (by rfl) (by rfl) (by decide) (by decide) (by decide)⟩
